import Mathlib

/-!
Verification of the e-cheque extraction-to-delivery pipeline.

This file is a shallow embedding of the pipeline's core components:
the classification and naming engine and response gate
(`processing_component.py`), the retry controller wrapping the
recognition call (`call_gemini_api_with_retry`, tenacity semantics),
and the delivery protocol (`teams_component.py`,
`upload_with_sharepoint_api`) modelled against the four-operation
remote-store contract.  Strings are modelled as Lean `String`
(operating on `String.data` where character-level manipulation is
needed), byte payloads as `List Nat`, and effectful calls (network,
rendering) as explicit outcome parameters.
-/

namespace ECheque

/-- Python `str.strip()` on the character list: drop whitespace from both ends. -/
def trimChars (cs : List Char) : List Char :=
  ((cs.dropWhile Char.isWhitespace).reverse.dropWhile Char.isWhitespace).reverse

/-- Python `str.strip()` lifted to `String`. -/
def pyStrip (s : String) : String := ⟨trimChars s.data⟩

/-- Python `s.split()` on the character list: maximal non-whitespace runs,
accumulator-based. -/
def wordsAux : List Char → List Char → List (List Char)
  | [], acc => if acc = [] then [] else [acc.reverse]
  | c :: cs, acc =>
    if c.isWhitespace then
      if acc = [] then wordsAux cs [] else acc.reverse :: wordsAux cs []
    else wordsAux cs (c :: acc)

/-- Python `' '.join(ws)` over a word list. -/
def joinWithSpace : List String → String
  | [] => ""
  | [w] => w
  | w :: ws => w ++ " " ++ joinWithSpace ws

/-- Python `' '.join(s.split())`: collapse every whitespace run to a single
space and drop leading/trailing whitespace. -/
def pyCollapseWs (s : String) : String :=
  joinWithSpace ((wordsAux s.data []).map (fun w => ⟨w⟩))

/-- Python `str.upper()` (ASCII case mapping), character by character. -/
def pyUpper (s : String) : String := ⟨s.data.map Char.toUpper⟩

/-- Python `s.startswith(pat)` on character lists (first argument the
pattern). -/
def startsWithChars : List Char → List Char → Bool
  | [], _ => true
  | _ :: _, [] => false
  | p :: ps, c :: cs => p = c && startsWithChars ps cs

/-- Python `s.startswith(pat)` on strings. -/
def pyStartsWith (s pat : String) : Bool := startsWithChars pat.data s.data

namespace Processing

/-- Character class of `processing_component.sanitize_filename`'s regex
`[\/*?:"<>|]` (the escape `\/` denotes a literal `/`). -/
def invalidChars : List Char := ['/', '*', '?', ':', '"', '<', '>', '|']

/-- Embeds `processing_component.sanitize_filename`: replace every character
of the invalid class with an underscore. -/
def sanitize_filename (s : String) : String :=
  ⟨s.data.map (fun c => if invalidChars.contains c then '_' else c)⟩

/-- The management-fee payee allow-list used by `generate_filename`. -/
def allowList : List String := ["OFS", "OREANA FINANCIAL SERVICES LIMITED"]

/-- Embeds `processing_component.generate_filename`: chooses a filename
template from the trailer/management-fee flags and the payer string. -/
def generate_filename (key_identifier payer payee currency : String)
    (is_trailer_fee is_management_fee : Bool) : String :=
  let sanitized_payee := sanitize_filename payee
  if is_trailer_fee then
    if payer = "WEALTH MANAGEMENT CUBE LIMITED" then
      key_identifier ++ " WMC-" ++ sanitized_payee ++ "_T.pdf"
    else if payer = "WMC NOMINEE LIMITED-CLIENT TRUST ACCOUNT" then
      currency ++ " " ++ key_identifier ++ " " ++ sanitized_payee ++ "_T.pdf"
    else
      sanitized_payee ++ "_" ++ key_identifier ++ "_" ++ currency ++ "_T.pdf"
  else if is_management_fee && allowList.contains (pyUpper payee) then
    if payer = "WEALTH MANAGEMENT CUBE LIMITED" then
      key_identifier ++ " WMC-" ++ sanitized_payee ++ " MF.pdf"
    else if payer = "WMC NOMINEE LIMITED-CLIENT TRUST ACCOUNT" then
      currency ++ " " ++ key_identifier ++ " " ++ sanitized_payee ++ " MF.pdf"
    else
      sanitized_payee ++ "_" ++ key_identifier ++ "_" ++ currency ++ " MF.pdf"
  else
    if payer = "WEALTH MANAGEMENT CUBE LIMITED" then
      key_identifier ++ " WMC-" ++ sanitized_payee ++ ".pdf"
    else if payer = "WMC NOMINEE LIMITED-CLIENT TRUST ACCOUNT" then
      currency ++ " " ++ key_identifier ++ " " ++ sanitized_payee ++ ".pdf"
    else
      sanitized_payee ++ "_" ++ key_identifier ++ "_" ++ currency ++ ".pdf"

/-- Fee class of a payment, per the spec's `NamingDecision` data model. -/
inductive FeeClass where
  | noFee
  | trailer
  | management
deriving DecidableEq

/-- Payer class, per the spec's `NamingDecision` data model. -/
inductive PayerClass where
  | wmc
  | nomineeTrust
  | other
deriving DecidableEq

/-- Modelled from the spec's words: `feeClass = Trailer` when `isTrailerFee`,
else `Management` when `isManagementFee` and the resolved payee is on the
allow-list (case-insensitive), else `None`. -/
def feeClassSpec (is_trailer_fee is_management_fee : Bool) (payee : String) : FeeClass :=
  if is_trailer_fee then .trailer
  else if is_management_fee && allowList.contains (pyUpper payee) then .management
  else .noFee

/-- Modelled from the spec's words: `payerClass` is `WMC` iff the payer is
exactly `"WEALTH MANAGEMENT CUBE LIMITED"`, `NomineeTrust` iff exactly
`"WMC NOMINEE LIMITED-CLIENT TRUST ACCOUNT"`, else `Other`. -/
def payerClassSpec (payer : String) : PayerClass :=
  if payer = "WEALTH MANAGEMENT CUBE LIMITED" then .wmc
  else if payer = "WMC NOMINEE LIMITED-CLIENT TRUST ACCOUNT" then .nomineeTrust
  else .other

/-- Filename suffix attached for each fee class (inserted before `.pdf`). -/
def feeSuffix : FeeClass → String
  | .noFee => ""
  | .trailer => "_T"
  | .management => " MF"

/-- Filename stem for each payer class, per the spec's template table. -/
def stemSpec (pc : PayerClass) (keyId currency sp : String) : String :=
  match pc with
  | .wmc => keyId ++ " WMC-" ++ sp
  | .nomineeTrust => currency ++ " " ++ keyId ++ " " ++ sp
  | .other => sp ++ "_" ++ keyId ++ "_" ++ currency

/-- The spec's filename template table as a single function of
`(payerClass, feeClass, keyId, currency, sanitized payee)`. -/
def specFilename (pc : PayerClass) (fc : FeeClass) (keyId currency sp : String) : String :=
  stemSpec pc keyId currency sp ++ feeSuffix fc ++ ".pdf"

/-- One row of the payee-mappings table (`payee_mappings.csv`):
a full name and its short form. -/
structure MappingRow where
  fullName : String
  shortForm : String
deriving DecidableEq

/-- The payee-mappings DataFrame: its rows (columns `Full Name` and
`Short Form`) plus the derived `Standardized_Name` column, present only
once something has written it. -/
structure MappingsDf where
  rows : List MappingRow
  stdCol : Option (List String)
deriving DecidableEq

/-- The normalization both sides of the lookup apply to a name:
`x.upper().strip()` then `' '.join(x.split())`. -/
def standardizeName (s : String) : String := pyCollapseWs (pyStrip (pyUpper s))

/-- Embeds `processing_component.get_payee_shortform`: an empty table returns
the payee untouched; otherwise the table gains a `Standardized_Name` column
(computed from `Full Name`), the standardized payee is matched against it,
and the first matching row's `Short Form` is returned, else the payee. -/
def get_payee_shortform (payee : String) (df : MappingsDf) : String × MappingsDf :=
  if df.rows.isEmpty then (payee, df)
  else
    let payeeU := standardizeName payee
    let std := df.rows.map (fun r => standardizeName r.fullName)
    let df' : MappingsDf := ⟨df.rows, some std⟩
    match (df.rows.zip std).find? (fun rs => rs.2 = payeeU) with
    | some rs => (rs.1.shortForm, df')
    | none => (payee, df')

/-- Modelled from the spec's words (`PayeeAliasTable` lookup): look the payee
up under a normalized key against equally normalized full names; a hit
returns the short form, a miss returns the original name. -/
def lookupAliasSpec (payee : String) (table : List MappingRow) : String :=
  match table.find? (fun r => standardizeName r.fullName = standardizeName payee) with
  | some r => r.shortForm
  | none => payee

/-- Embeds the payee-resolution branch of `process_echeque`: the alias lookup
is applied only when the payer is not the client trust account. -/
def resolvePayee (payer payee : String) (df : MappingsDf) : String × MappingsDf :=
  if payer ≠ "WMC NOMINEE LIMITED-CLIENT TRUST ACCOUNT" then get_payee_shortform payee df
  else (payee, df)

/-- A JSON value, as far as the extraction response uses them. -/
inductive JVal where
  | str (s : String)
  | boolean (b : Bool)
  | num (n : Int)
  | null
deriving DecidableEq

/-- A parsed JSON object: association list with the keys unique by
construction in `json.loads`. -/
abbrev JObj := List (String × JVal)

/-- Key lookup in a parsed JSON object (Python `obj[k]` / `k in obj`). -/
def lookupKey (obj : JObj) (k : String) : Option JVal :=
  (obj.find? (fun p => p.1 = k)).map (fun p => p.2)

/-- Python truthiness of a JSON value, as used by `if is_trailer_fee:`. -/
def asTruthy : JVal → Bool
  | .boolean b => b
  | .str s => s ≠ ""
  | .num n => n ≠ 0
  | .null => false

/-- String content of a JSON value; non-strings are modelled as the empty
string (the code would fail on them later, which no claim exercises). -/
def asStr : JVal → String
  | .str s => s
  | _ => ""

/-- The required-field list of `process_echeque` (note: `next_step` is not
on it; the code reads it with a default of `"Unknown"`). -/
def requiredFields : List String :=
  ["date", "payee", "key_identifier", "payer", "currency", "is_trailer_fee",
   "is_management_fee"]

/-- Embeds the response cleaning of `process_echeque`: strip the raw text,
then peel a fenced ```json code block by dropping 7 leading and 3 trailing
characters. -/
def cleanResponse (raw : String) : String :=
  let c := pyStrip raw
  if pyStartsWith c "```json" then
    let d := c.data.drop 7
    ⟨d.take (d.length - 3)⟩
  else c

/-- Result record of a successfully processed e-cheque (the fields the
claims observe). -/
structure ProcResult where
  originalPayee : String
  mappedPayee : String
  generatedFilename : String
  nextStep : String
deriving DecidableEq

/-- Outcome of `process_echeque`'s response-processing stage. -/
inductive ProcOutcome where
  | ok (r : ProcResult)
  | err (msg : String)
deriving DecidableEq

/-- Embeds the body of `process_echeque`'s response processing on a parsed
object: the required-field gate, payee resolution and naming.  Returns the
outcome, a flag recording whether `generate_filename` was invoked, and the
mappings table as left behind. -/
def processObj (obj : JObj) (df : MappingsDf) : ProcOutcome × Bool × MappingsDf :=
  if (requiredFields.filter (fun f => lookupKey obj f = Option.none)).isEmpty then
    (.ok ⟨asStr ((lookupKey obj "payee").getD .null),
          (resolvePayee (asStr ((lookupKey obj "payer").getD .null))
            (asStr ((lookupKey obj "payee").getD .null)) df).1,
          generate_filename (asStr ((lookupKey obj "key_identifier").getD .null))
            (asStr ((lookupKey obj "payer").getD .null))
            (resolvePayee (asStr ((lookupKey obj "payer").getD .null))
              (asStr ((lookupKey obj "payee").getD .null)) df).1
            (asStr ((lookupKey obj "currency").getD .null))
            (asTruthy ((lookupKey obj "is_trailer_fee").getD .null))
            (asTruthy ((lookupKey obj "is_management_fee").getD .null)),
          asStr ((lookupKey obj "next_step").getD (.str "Unknown"))⟩,
     true,
     (resolvePayee (asStr ((lookupKey obj "payer").getD .null))
       (asStr ((lookupKey obj "payee").getD .null)) df).2)
  else
    (.err ("Missing required fields in API response: " ++
      String.intercalate ", "
        (requiredFields.filter (fun f => lookupKey obj f = Option.none))),
     false, df)

/-- Embeds the response-processing stage of `process_echeque`, starting from
the (abstract) result of `json.loads` on the cleaned response.  `none`
models a `json.JSONDecodeError`. -/
def processParsed (parsed : Option JObj) (df : MappingsDf) :
    ProcOutcome × Bool × MappingsDf :=
  match parsed with
  | Option.none => (.err "Error parsing JSON response", false, df)
  | some obj => processObj obj df

/-- The response-processing stage composed with cleaning, `parse` standing
for `json.loads`. -/
def processResponse (parse : String → Option JObj) (raw : String)
    (df : MappingsDf) : ProcOutcome × Bool × MappingsDf :=
  processParsed (parse (cleanResponse raw)) df

/-- Python `pat in s` on character lists (first argument the pattern). -/
def containsChars (pat : List Char) : List Char → Bool
  | [] => startsWithChars pat []
  | c :: cs => startsWithChars pat (c :: cs) || containsChars pat cs

/-- Python `pat in s` on strings. -/
def pyContains (s pat : String) : Bool := containsChars pat.data s.data

/-- Constant `MAX_RETRIES` of `processing_component.py`. -/
def MAX_RETRIES : Nat := 5

/-- Constant `INITIAL_WAIT` of `processing_component.py` (the tenacity
`wait_exponential` multiplier). -/
def INITIAL_WAIT : Nat := 1

/-- Constant `MAX_WAIT` of `processing_component.py` (the tenacity
`wait_exponential` cap). -/
def MAX_WAIT : Nat := 32

/-- Outcome of one underlying `model.generate_content` call: a text
response, a falsy (empty) response, or a raised exception with its
message. -/
inductive CallOutcome where
  | ok (text : String)
  | empty
  | exn (msg : String)
deriving DecidableEq

/-- The two error classes the wrapper distinguishes: `APIRateLimitError`
(retried) and everything else (re-raised immediately). -/
inductive GeminiError where
  | rateLimit (msg : String)
  | fatal (msg : String)
deriving DecidableEq

/-- Embeds the body of `call_gemini_api_with_retry`: a falsy response raises
`APIRateLimitError("Empty response from API")`, an exception whose text
contains `"429"` raises `APIRateLimitError("Rate limit exceeded: ...")`,
any other exception is re-raised; a response yields its stripped text. -/
def classifyOutcome : CallOutcome → Except GeminiError String
  | .ok t => .ok (pyStrip t)
  | .empty => .error (.rateLimit "Empty response from API")
  | .exn m =>
    if pyContains m "429" then .error (.rateLimit ("Rate limit exceeded: " ++ m))
    else .error (.fatal m)

/-- True exactly on the `APIRateLimitError` class. -/
def isRateLimited (r : Except GeminiError String) : Bool :=
  match r with
  | .error (.rateLimit _) => true
  | _ => false

/-- The tenacity `wait_exponential(multiplier=INITIAL_WAIT, max=MAX_WAIT)`
sleep after failed attempt `k` (attempt numbers start at 1):
`min(multiplier * 2^(attempt_number - 1), max)`. -/
def waitAfter (k : Nat) : Nat := min (INITIAL_WAIT * 2 ^ (k - 1)) MAX_WAIT

/-- What a run of the retry-wrapped call produced: the final result, the
number of attempts made, and the backoff sleeps taken between attempts (in
order). -/
structure RetryTrace where
  result : Except GeminiError String
  attempts : Nat
  waits : List Nat

/-- The tenacity retry loop around the classified call:
`retry_if_exception_type(APIRateLimitError)` retries only rate-limit
errors, `stop_after_attempt` bounds the attempts by the fuel, and
`reraise=True` re-raises the last underlying error when attempts run out.
`fault k` is the outcome of the k-th underlying call. -/
def retryAux (fault : Nat → CallOutcome) : Nat → Nat → List Nat → RetryTrace
  | 0, k, ws => ⟨.error (.rateLimit "no attempts configured"), k - 1, ws.reverse⟩
  | 1, k, ws =>
    match classifyOutcome (fault k) with
    | .ok t => ⟨.ok t, k, ws.reverse⟩
    | .error e => ⟨.error e, k, ws.reverse⟩
  | fuel + 2, k, ws =>
    match classifyOutcome (fault k) with
    | .ok t => ⟨.ok t, k, ws.reverse⟩
    | .error (.fatal m) => ⟨.error (.fatal m), k, ws.reverse⟩
    | .error (.rateLimit _) => retryAux fault (fuel + 1) (k + 1) (waitAfter k :: ws)

/-- Embeds `call_gemini_api_with_retry` under its decorator configuration:
at most `MAX_RETRIES` attempts starting at attempt 1 with no sleeps yet. -/
def call_gemini_api_with_retry (fault : Nat → CallOutcome) : RetryTrace :=
  retryAux fault MAX_RETRIES 1 []

/-- Embeds the error handling of `call_gemini_api` around the retry-wrapped
call: a surviving `APIRateLimitError` is wrapped in the rate-limit-exhausted
message (carrying the last underlying error), any other exception in the
unexpected-error message. -/
def call_gemini_api (fault : Nat → CallOutcome) : Except String String :=
  match (call_gemini_api_with_retry fault).result with
  | .ok t => .ok t
  | .error (.rateLimit m) =>
    .error ("Rate limit error after " ++ toString MAX_RETRIES ++
      " retries. Last error: " ++ m ++
      ". Please wait a few minutes before trying again.")
  | .error (.fatal m) => .error ("Unexpected error during API call: " ++ m)

/-- A parsed response carrying all seven fields of `required_fields` but no
`next_step` key. -/
def sampleObjNoNextStep : JObj :=
  [("date", JVal.str "2024-01-01"), ("payee", JVal.str "AAM Advisory"),
   ("key_identifier", JVal.str "000495"),
   ("payer", JVal.str "WEALTH MANAGEMENT CUBE LIMITED"),
   ("currency", JVal.str "HKD"), ("is_trailer_fee", JVal.boolean false),
   ("is_management_fee", JVal.boolean false)]

/-- One downloaded document entering the batch: its source identifier and
its raw bytes. -/
structure FileInfo where
  filename : String
  content : List Nat
deriving DecidableEq

/-- Embeds the loop of `process_echeques` with the effectful per-document
processing abstracted by `outcome` (what `process_echeque` returns for each
file): an error appends a `{filename, error}` failure record and continues,
a success appends the result record; the batch never aborts. -/
def process_echeques (outcome : FileInfo → Except String ProcResult) :
    List FileInfo → List (FileInfo × ProcResult) × List (String × String)
  | [] => ([], [])
  | f :: rest =>
    match outcome f with
    | .error e =>
      ((process_echeques outcome rest).1,
       (f.filename, e) :: (process_echeques outcome rest).2)
    | .ok r =>
      ((f, r) :: (process_echeques outcome rest).1,
       (process_echeques outcome rest).2)

end Processing

namespace Teams

/-- The SharePoint-disallowed character class of
`teams_component.sanitize_filename`'s regex: `" * : < > ? / \ | # % { } ~`. -/
def invalidChars : List Char :=
  ['"', '*', ':', '<', '>', '?', '/', '\\', '|', '#', '%', '\x7b', '\x7d', '~']

/-- Step 1 of the sanitizer: replace every disallowed character with an
underscore. -/
def replaceInvalid (cs : List Char) : List Char :=
  cs.map (fun c => if invalidChars.contains c then '_' else c)

/-- Step 3 of the sanitizer: remove leading dots (`re.sub(r'^\.+', '', s)`). -/
def dropLeadingDots (cs : List Char) : List Char :=
  cs.dropWhile (fun c => c = '.')

/-- Index of the last dot of the name, when one exists. -/
def lastDotIdx? (cs : List Char) : Option Nat :=
  match cs.reverse.findIdx? (fun c => c = '.') with
  | Option.none => Option.none
  | some r => some (cs.length - 1 - r)

/-- Python `os.path.splitext` on a bare filename (no separators survive the
replacement step): split at the last dot unless every character before it
is itself a dot. -/
def splitExtChars (cs : List Char) : List Char × List Char :=
  match lastDotIdx? cs with
  | Option.none => (cs, [])
  | some i =>
    if (cs.take i).all (fun c => c = '.') then (cs, [])
    else (cs.take i, cs.drop i)

/-- Python `cs[:k]` with a possibly negative bound. -/
def pySliceTo (cs : List Char) (k : Int) : List Char :=
  if 0 ≤ k then cs.take k.toNat else cs.take (cs.length - (-k).toNat)

/-- Step 4 of the sanitizer: when the name exceeds 240 characters, keep
`name_part[:240-len(ext)] + ext`. -/
def truncate240 (cs : List Char) : List Char :=
  if cs.length > 240 then
    pySliceTo (splitExtChars cs).1 ((240 : Int) - (splitExtChars cs).2.length)
      ++ (splitExtChars cs).2
  else cs

/-- Embeds `teams_component.sanitize_filename`: replace disallowed
characters, strip surrounding whitespace, strip leading dots, truncate to
240 characters preserving the extension. -/
def sanitizeChars (cs : List Char) : List Char :=
  truncate240 (dropLeadingDots (trimChars (replaceInvalid cs)))

/-- `teams_component.sanitize_filename` on strings. -/
def sanitize_filename (s : String) : String := ⟨sanitizeChars s.data⟩

/-- One mebibyte, the chunk size of the upload session. -/
def MiB : Nat := 1024 * 1024

/-- An item of the target folder in the remote document store. -/
structure StoreItem where
  name : String
  content : List Nat
deriving DecidableEq

/-- The children of the target folder. -/
abbrev Store := List StoreItem

/-- Which transfer strategy a delivery used, with the byte ranges of the
chunk requests for a session. -/
inductive Transfer where
  | direct (toExisting : Bool)
  | session (toExisting : Bool) (ranges : List (Nat × Nat)) (total : Nat)
deriving DecidableEq

/-- What one call of the delivery protocol did: its outcome, the folder
contents afterwards, the transfer strategy taken, the (sanitized) name it
probed and wrote under, and whether the existence probe found an item. -/
structure DeliverResult where
  success : Bool
  store : Store
  transfer : Transfer
  uploadName : String
  existedBefore : Bool
deriving DecidableEq

/-- The `while uploaded < total_size` chunk loop: emits the
`bytes start-end/total` ranges of the 1 MiB chunk requests (fuel-based for
kernel evaluation; `chunkRanges` supplies enough fuel). -/
def chunkRangesAux (fuel : Nat) (total uploaded : Nat) : List (Nat × Nat) :=
  match fuel with
  | 0 => []
  | fuel + 1 =>
    if uploaded < total then
      (uploaded, uploaded + min MiB (total - uploaded) - 1)
        :: chunkRangesAux fuel total (uploaded + min MiB (total - uploaded))
    else []

/-- The chunk ranges issued for a payload of `total` bytes. -/
def chunkRanges (total : Nat) : List (Nat × Nat) := chunkRangesAux total total 0

/-- Content write by item id against the store contract: replace the content
of the (first) item carrying the name. -/
def updateFirstContent (store : Store) (nm : String) (content : List Nat) : Store :=
  match store with
  | [] => []
  | it :: rest =>
    if it.name = nm then ⟨it.name, content⟩ :: rest
    else it :: updateFirstContent rest nm content

/-- How many items of the folder carry the name. -/
def countName (store : Store) (nm : String) : Nat :=
  store.countP (fun it => it.name = nm)

/-- Content of the first item carrying the name, when one exists (what the
existence probe, a children listing filtered by exact name, sees). -/
def findContent (store : Store) (nm : String) : Option (List Nat) :=
  (store.find? (fun it => it.name = nm)).map (fun it => it.content)

/-- Embeds the protocol logic of `teams_component.upload_with_sharepoint_api`
against the four-operation remote-store contract, on the happy path (every
request accepted): sanitize the filename, probe the target folder for an
item with the exact sanitized name, then — for payloads strictly under
4 MiB — PUT the whole payload to the existing item's content endpoint or to
the create-by-path endpoint, and otherwise open an upload session (against
the existing item's id, or by path with conflict behavior `replace`) and
PUT sequential 1 MiB `Content-Range` chunks.  The store effect of each
operation follows the Graph contract: a write by id replaces that item's
content, a create-by-path adds the item, a session with `replace` behavior
converges to the same. -/
def upload_with_sharepoint_api (store : Store) (filename : String)
    (fileData : List Nat) : DeliverResult :=
  let safe := sanitize_filename filename
  let existed := (store.find? (fun it => it.name = safe)).isSome
  if fileData.length < 4 * MiB then
    if existed then
      ⟨true, updateFirstContent store safe fileData, .direct true, safe, true⟩
    else
      ⟨true, store ++ [⟨safe, fileData⟩], .direct false, safe, false⟩
  else
    if existed then
      ⟨true, updateFirstContent store safe fileData,
       .session true (chunkRanges fileData.length) fileData.length, safe, true⟩
    else
      ⟨true, store ++ [⟨safe, fileData⟩],
       .session false (chunkRanges fileData.length) fileData.length, safe, false⟩

/-- Length in bytes of a `bytes start-end/total` range. -/
def rangeLen (r : Nat × Nat) : Nat := r.2 + 1 - r.1

/-- The ranges are contiguous and non-overlapping starting at `pos`: each
begins exactly where the previous one ended plus one. -/
def chunksFrom : Nat → List (Nat × Nat) → Prop
  | _, [] => True
  | pos, (s, e) :: rest => s = pos ∧ pos ≤ e ∧ chunksFrom (e + 1) rest

/-- One past the last byte the ranges cover, starting from `pos`. -/
def rangesEnd : Nat → List (Nat × Nat) → Nat
  | pos, [] => pos
  | _, (_, e) :: rest => rangesEnd (e + 1) rest

/-- Python `s.endswith(pat)` on character lists (first argument the
pattern). -/
def endsWithChars (pat cs : List Char) : Bool :=
  startsWithChars pat.reverse cs.reverse

/-- Embeds the first pattern of `determine_target_folder`:
`^\d+ WMC-.*\.pdf$`. -/
def matchType1 (cs : List Char) : Bool :=
  let ds := cs.takeWhile (fun x => x.isDigit)
  decide (ds ≠ []) && startsWithChars " WMC-".data (cs.drop ds.length)
    && endsWithChars ".pdf".data ((cs.drop ds.length).drop 5)

/-- Embeds the second pattern of `determine_target_folder`:
`^[A-Z]{3} \d+ .*\.pdf$`. -/
def matchType2 (cs : List Char) : Bool :=
  match cs with
  | a :: b :: c :: d :: rest =>
    a.isUpper && b.isUpper && c.isUpper && decide (d = ' ') &&
    (let ds := rest.takeWhile (fun x => x.isDigit)
     decide (ds ≠ []) &&
     (match rest.drop ds.length with
      | e :: tail => decide (e = ' ') && endsWithChars ".pdf".data tail
      | [] => false))
  | _ => false

/-- Embeds `teams_component.determine_target_folder`: folder id, folder path
and folder name from the filename pattern, defaulting to the WMC E-cheque
folder. -/
def determine_target_folder (filename : String) : String × String × String :=
  if matchType1 filename.data then
    ("01OU6MNL3KE3XP2T5JMZC244U33CGKOAMH",
     "Finance Staff/Bank/Cashflow/WMC E-cheque", "WMC E-cheque")
  else if matchType2 filename.data then
    ("01OU6MNL5F3ZCFDTEACRAJDOX2G4NUMX72",
     "Finance Staff/Bank/E cheque WMC Nominee", "E cheque WMC Nominee")
  else
    ("01OU6MNL3KE3XP2T5JMZC244U33CGKOAMH",
     "Finance Staff/Bank/Cashflow/WMC E-cheque", "WMC E-cheque")

/-- One processed file entering the upload loop. -/
structure UploadFile where
  generatedFilename : String
  pdfData : List Nat
  originalFilename : String
deriving DecidableEq

/-- The per-file record `upload_files_to_teams` appends unconditionally. -/
structure UploadResult where
  filename : String
  originalFilename : String
  success : Bool
  error : Option String
  targetFolder : String
  folderId : String
deriving DecidableEq

/-- Embeds the loop of `upload_files_to_teams` (after token acquisition has
succeeded) with the effectful per-file upload abstracted by `uploadOne`
(what `upload_file` returns): each file gets its target folder from its
generated filename and exactly one success-or-failure record, in input
order. -/
def upload_files_to_teams (uploadOne : UploadFile → Bool × Option String)
    (files : List UploadFile) : List UploadResult :=
  files.map (fun f =>
    ⟨f.generatedFilename, f.originalFilename, (uploadOne f).1, (uploadOne f).2,
     (determine_target_folder f.generatedFilename).2.2,
     (determine_target_folder f.generatedFilename).1⟩)

end Teams

end ECheque

namespace ECheque

namespace Processing

/-- Helper: `generate_filename` agrees with the spec's template table driven
by the spec-modelled payer class and fee class, on every input. -/
theorem generate_filename_eq_spec (k payer payee c : String) (tf mf : Bool) :
    generate_filename k payer payee c tf mf =
      specFilename (payerClassSpec payer) (feeClassSpec tf mf payee) k c
        (sanitize_filename payee) := by
  unfold generate_filename specFilename stemSpec feeSuffix payerClassSpec feeClassSpec
  cases tf <;> cases mf <;>
    by_cases h1 : payer = "WEALTH MANAGEMENT CUBE LIMITED" <;>
    by_cases h2 : payer = "WMC NOMINEE LIMITED-CLIENT TRUST ACCOUNT" <;>
    by_cases h3 : pyUpper payee ∈ allowList <;>
    simp [h1, h2, h3, String.append_assoc,
      show ("_T" : String) ++ ".pdf" = "_T.pdf" from rfl,
      show (" MF" : String) ++ ".pdf" = " MF.pdf" from rfl,
      show ("" : String) ++ ".pdf" = ".pdf" from rfl]

/-- C3: fee classification of `generate_filename`.  When `is_trailer_fee` is
true the filename carries the `_T` suffix regardless of `is_management_fee`;
otherwise, when `is_management_fee` is true and the resolved payee
(case-insensitively) is `"OFS"` or `"OREANA FINANCIAL SERVICES LIMITED"`,
it carries the ` MF` suffix; in every other case it carries no suffix.
In particular trailer-plus-management yields the trailer suffix, never the
management one, and a management fee with a payee outside the allow-list
yields no suffix. -/
theorem fee_classification_priority (k payer payee c : String) (mf : Bool) :
    (generate_filename k payer payee c true mf
      = stemSpec (payerClassSpec payer) k c (sanitize_filename payee) ++ "_T" ++ ".pdf") ∧
    (pyUpper payee ∈ allowList →
      generate_filename k payer payee c false true
        = stemSpec (payerClassSpec payer) k c (sanitize_filename payee) ++ " MF" ++ ".pdf") ∧
    (pyUpper payee ∉ allowList →
      generate_filename k payer payee c false true
        = stemSpec (payerClassSpec payer) k c (sanitize_filename payee) ++ ".pdf") ∧
    (generate_filename k payer payee c false false
      = stemSpec (payerClassSpec payer) k c (sanitize_filename payee) ++ ".pdf") := by
  refine ⟨?_, fun h3 => ?_, fun h3 => ?_, ?_⟩ <;> rw [generate_filename_eq_spec]
  · simp [feeClassSpec, specFilename, feeSuffix]
  · simp [feeClassSpec, specFilename, feeSuffix, h3]
  · simp [feeClassSpec, specFilename, feeSuffix, h3,
      show ("" : String) ++ ".pdf" = ".pdf" from rfl]
  · simp [feeClassSpec, specFilename, feeSuffix,
      show ("" : String) ++ ".pdf" = ".pdf" from rfl]

/-- Witness for `fee_classification_priority` at concrete inputs: an
allow-listed payee with a management fee gets ` MF`, an outside payee with a
management fee gets no suffix. -/
theorem fee_classification_priority_witness :
    (Processing.generate_filename "000001" "ACME" "OFS" "HKD" false true
      = Processing.stemSpec (Processing.payerClassSpec "ACME") "000001" "HKD"
          (Processing.sanitize_filename "OFS") ++ " MF" ++ ".pdf") ∧
    (Processing.generate_filename "000001" "ACME" "Bob" "HKD" false true
      = Processing.stemSpec (Processing.payerClassSpec "ACME") "000001" "HKD"
          (Processing.sanitize_filename "Bob") ++ ".pdf") :=
  ⟨(fee_classification_priority "000001" "ACME" "OFS" "HKD" true).2.1 (by decide),
   (fee_classification_priority "000001" "ACME" "Bob" "HKD" true).2.2.1 (by decide)⟩

/-- C4: filename template selection.  `generate_filename` is exactly the
spec's template table applied to the payer class (exact-match on the payer
string), the fee class, and the sanitized resolved payee; in particular
Scenario A yields `"000495 WMC-AAM Advisory.pdf"` and Scenario B yields
`"HKD 100671 Cheung Wilma Veronica.pdf"`. -/
theorem filename_template_selection :
    (∀ (k payer payee c : String) (tf mf : Bool),
      generate_filename k payer payee c tf mf =
        specFilename (payerClassSpec payer) (feeClassSpec tf mf payee) k c
          (sanitize_filename payee)) ∧
    generate_filename "000495" "WEALTH MANAGEMENT CUBE LIMITED" "AAM Advisory" "HKD"
        false false = "000495 WMC-AAM Advisory.pdf" ∧
    generate_filename "100671" "WMC NOMINEE LIMITED-CLIENT TRUST ACCOUNT"
        "Cheung Wilma Veronica" "HKD" false false
      = "HKD 100671 Cheung Wilma Veronica.pdf" :=
  ⟨generate_filename_eq_spec, by decide, by decide⟩

/-- Helper: matching the zipped standardized column equals matching the rows
under the standardizing function directly. -/
theorem find_zip_map (f : MappingRow → String) (rows : List MappingRow) (u : String) :
    ((rows.zip (rows.map f)).find? (fun rs => rs.2 = u)).map Prod.fst
      = rows.find? (fun r => f r = u) := by
  induction rows with
  | nil => rfl
  | cons r rest ih =>
    rw [List.map_cons, List.zip_cons_cons]
    by_cases h : f r = u
    · rw [List.find?_cons_of_pos _ (by simpa using h),
        List.find?_cons_of_pos _ (by simpa using h)]
      rfl
    · rw [List.find?_cons_of_neg _ (by simpa using h),
        List.find?_cons_of_neg _ (by simpa using h)]
      exact ih

/-- Helper: the value returned by `get_payee_shortform` is the spec's
normalized-key alias lookup. -/
theorem get_payee_shortform_fst (payee : String) (df : MappingsDf) :
    (get_payee_shortform payee df).1 = lookupAliasSpec payee df.rows := by
  unfold get_payee_shortform lookupAliasSpec
  by_cases he : df.rows.isEmpty
  · rw [if_pos he]
    rw [List.isEmpty_iff.mp he]
    rfl
  · rw [if_neg he]
    have h := find_zip_map (fun r => standardizeName r.fullName) df.rows
      (standardizeName payee)
    cases hz : (df.rows.zip (df.rows.map fun r => standardizeName r.fullName)).find?
        (fun rs => rs.2 = standardizeName payee) with
    | none =>
      rw [hz] at h
      simp only [Option.map_none'] at h
      rw [← h]
      simp [hz]
    | some rs =>
      rw [hz] at h
      simp only [Option.map_some'] at h
      rw [← h]
      simp [hz]

/-- Helper: `get_payee_shortform` leaves the rows of the table unchanged. -/
theorem get_payee_shortform_rows (payee : String) (df : MappingsDf) :
    ((get_payee_shortform payee df).2).rows = df.rows := by
  unfold get_payee_shortform
  by_cases he : df.rows.isEmpty
  · rw [if_pos he]
  · rw [if_neg he]
    cases hz : (df.rows.zip (df.rows.map fun r => standardizeName r.fullName)).find?
        (fun rs => rs.2 = standardizeName payee) <;> simp [hz]

/-- Helper: the only mutation `get_payee_shortform` performs is writing the
standardized-name column on a non-empty table. -/
theorem get_payee_shortform_stdCol (payee : String) (df : MappingsDf) :
    ((get_payee_shortform payee df).2).stdCol =
      (if df.rows.isEmpty then df.stdCol
       else some (df.rows.map (fun r => standardizeName r.fullName))) := by
  unfold get_payee_shortform
  by_cases he : df.rows.isEmpty
  · rw [if_pos he, if_pos he]
  · rw [if_neg he, if_neg he]
    cases hz : (df.rows.zip (df.rows.map fun r => standardizeName r.fullName)).find?
        (fun rs => rs.2 = standardizeName payee) <;> simp [hz]

/-- Helper: `resolvePayee` leaves the rows of the table unchanged. -/
theorem resolvePayee_rows (payer payee : String) (df : MappingsDf) :
    ((resolvePayee payer payee df).2).rows = df.rows := by
  unfold resolvePayee
  by_cases hp : payer ≠ "WMC NOMINEE LIMITED-CLIENT TRUST ACCOUNT"
  · rw [if_pos hp]
    exact get_payee_shortform_rows payee df
  · rw [if_neg hp]

/-- Helper: the response-processing stage leaves the rows of the table
unchanged. -/
theorem processParsed_rows (parsed : Option JObj) (df : MappingsDf) :
    ((processParsed parsed df).2.2).rows = df.rows := by
  cases parsed with
  | none => rfl
  | some obj =>
    show ((processObj obj df).2.2).rows = df.rows
    unfold processObj
    by_cases hm : (requiredFields.filter
        (fun f => lookupKey obj f = Option.none)).isEmpty
    · rw [if_pos hm]
      exact resolvePayee_rows _ _ df
    · rw [if_neg hm]

/-- C8: payee resolution.  For the client-trust-account payer the extracted
payee is used verbatim with no alias lookup; for every other payer the payee
is resolved through the normalized-key alias lookup (uppercase, trimmed,
inner whitespace collapsed, matched against equally normalized full names),
a hit yielding the row's short form; a miss — in particular against a table
with no normalized match — returns the original payee, never an error. -/
theorem payee_resolution (payer payee : String) (df : MappingsDf) :
    (payer = "WMC NOMINEE LIMITED-CLIENT TRUST ACCOUNT" →
      (resolvePayee payer payee df).1 = payee) ∧
    (payer ≠ "WMC NOMINEE LIMITED-CLIENT TRUST ACCOUNT" →
      (resolvePayee payer payee df).1 = lookupAliasSpec payee df.rows) ∧
    ((∀ r ∈ df.rows, standardizeName r.fullName ≠ standardizeName payee) →
      (resolvePayee payer payee df).1 = payee) := by
  refine ⟨fun h => ?_, fun h => ?_, fun h => ?_⟩
  · simp [resolvePayee, h]
  · simp only [resolvePayee, h, ne_eq, not_false_iff, if_true]
    exact get_payee_shortform_fst payee df
  · have hnone : df.rows.find?
        (fun r => standardizeName r.fullName = standardizeName payee) = Option.none := by
      apply List.find?_eq_none.mpr
      intro r hr
      simpa using h r hr
    by_cases hp : payer = "WMC NOMINEE LIMITED-CLIENT TRUST ACCOUNT"
    · simp [resolvePayee, hp]
    · simp only [resolvePayee, hp, ne_eq, not_false_iff, if_true]
      rw [get_payee_shortform_fst]
      unfold lookupAliasSpec
      rw [hnone]

/-- Witness for `payee_resolution` at concrete inputs: the trust-account
payer bypasses the table, another payer resolves through it, and a miss
returns the original name. -/
theorem payee_resolution_witness :
    ((resolvePayee "WMC NOMINEE LIMITED-CLIENT TRUST ACCOUNT" "AAM  Advisory"
        ⟨[⟨"aam advisory", "AAM"⟩], Option.none⟩).1 = "AAM  Advisory") ∧
    ((resolvePayee "WEALTH MANAGEMENT CUBE LIMITED" "aam  advisory"
        ⟨[⟨"AAM Advisory", "AAM"⟩], Option.none⟩).1
      = lookupAliasSpec "aam  advisory" [⟨"AAM Advisory", "AAM"⟩]) ∧
    ((resolvePayee "WEALTH MANAGEMENT CUBE LIMITED" "Somebody Else"
        ⟨[⟨"AAM Advisory", "AAM"⟩], Option.none⟩).1 = "Somebody Else") :=
  ⟨(payee_resolution "WMC NOMINEE LIMITED-CLIENT TRUST ACCOUNT" "AAM  Advisory"
      ⟨[⟨"aam advisory", "AAM"⟩], Option.none⟩).1 (by decide),
   (payee_resolution "WEALTH MANAGEMENT CUBE LIMITED" "aam  advisory"
      ⟨[⟨"AAM Advisory", "AAM"⟩], Option.none⟩).2.1 (by decide),
   (payee_resolution "WEALTH MANAGEMENT CUBE LIMITED" "Somebody Else"
      ⟨[⟨"AAM Advisory", "AAM"⟩], Option.none⟩).2.2 (by decide)⟩

/-- C10 counterexample: the lookup does not leave the table unchanged — on a
non-empty table it writes the derived `Standardized_Name` column in place,
so the table object after the call differs from the one passed in. -/
theorem alias_table_mutated_cx :
    (get_payee_shortform "X" ⟨[⟨"ACME LIMITED", "ACME"⟩], Option.none⟩).2
      ≠ ⟨[⟨"ACME LIMITED", "ACME"⟩], Option.none⟩ := by decide

/-- C10 (amended): the lookup never adds, removes or modifies rows or the
`Full Name`/`Short Form` columns — the only mutation is writing the derived
`Standardized_Name` column (computed from `Full Name`) onto a non-empty
table; an empty table is returned untouched.  The response-processing stage
preserves the rows as well. -/
theorem alias_table_rows_preserved (payee : String) (df : MappingsDf)
    (parsed : Option JObj) :
    ((get_payee_shortform payee df).2).rows = df.rows ∧
    ((get_payee_shortform payee df).2).stdCol =
      (if df.rows.isEmpty then df.stdCol
       else some (df.rows.map (fun r => standardizeName r.fullName))) ∧
    ((processParsed parsed df).2.2).rows = df.rows :=
  ⟨get_payee_shortform_rows payee df, get_payee_shortform_stdCol payee df,
   processParsed_rows parsed df⟩

/-- Helper: a character list with non-whitespace first and last characters
is fixed by Python strip. -/
theorem trimChars_no_ws (cs : List Char)
    (hh : ∀ c ∈ cs.take 1, c.isWhitespace = false)
    (hl : ∀ c ∈ cs.reverse.take 1, c.isWhitespace = false) :
    trimChars cs = cs := by
  unfold trimChars
  have h1 : cs.dropWhile Char.isWhitespace = cs := by
    cases cs with
    | nil => rfl
    | cons a t =>
      rw [List.dropWhile_cons, if_neg]
      simp only [List.take, List.mem_cons] at hh
      simp [hh a (Or.inl rfl)]
  rw [h1]
  have h2 : cs.reverse.dropWhile Char.isWhitespace = cs.reverse := by
    cases hr : cs.reverse with
    | nil => rfl
    | cons a t =>
      rw [List.dropWhile_cons, if_neg]
      rw [hr] at hl
      simp only [List.take, List.mem_cons] at hl
      simp [hl a (Or.inl rfl)]
  rw [h2, List.reverse_reverse]

/-- Helper: a response wrapped in a fenced ```json code block cleans to
exactly the wrapped body. -/
theorem cleanResponse_fence (body : String) :
    cleanResponse ("```json" ++ body ++ "```") = body := by
  have hd : ("```json" ++ body ++ "```").data
      = '`' :: '`' :: '`' :: 'j' :: 's' :: 'o' :: 'n'
          :: (body.data ++ ['`', '`', '`']) := by
    simp [String.data_append]
  have hps : pyStrip ("```json" ++ body ++ "```") = "```json" ++ body ++ "```" := by
    show String.mk (trimChars _) = _
    rw [hd, trimChars_no_ws]
    · rw [← hd]
    · intro c hc
      simp only [List.take, List.mem_cons] at hc
      rcases hc with h | h
      · rw [h]; decide
      · simp at h
    · intro c hc
      simp only [List.reverse_cons, List.reverse_append, List.append_assoc] at hc
      simp only [List.take, List.mem_cons] at hc
      rcases hc with h | h
      · rw [h]; decide
      · simp at h
  unfold cleanResponse
  rw [hps]
  have hsw : pyStartsWith ("```json" ++ body ++ "```") "```json" = true := by
    show startsWithChars "```json".data _ = true
    rw [hd]
    rfl
  rw [if_pos hsw]
  show String.mk ((("```json" ++ body ++ "```").data.drop 7).take
      ((("```json" ++ body ++ "```").data.drop 7).length - 3)) = body
  have hdrop : ("```json" ++ body ++ "```").data.drop 7
      = body.data ++ ['`', '`', '`'] := by
    rw [hd]
    rfl
  rw [hdrop]
  have hlen : (body.data ++ ['`', '`', '`']).length - 3 = body.data.length := by
    simp
  rw [hlen]
  have htake : (body.data ++ ['`', '`', '`']).take body.data.length = body.data :=
    List.take_left body.data _
  rw [htake]

/-- C6 counterexample: a parsed response carrying all seven fields of the
code's required list but no `next_step` key is not rejected — the gate
passes, naming is invoked and a result record is produced with
`next_step = "Unknown"` — although the claim lists `nextStep` among the
required fields whose absence must yield a missing-fields error. -/
theorem required_field_gate_cx :
    lookupKey sampleObjNoNextStep "next_step" = Option.none ∧
    processParsed (some sampleObjNoNextStep) ⟨[], Option.none⟩
      = (.ok ⟨"AAM Advisory", "AAM Advisory", "000495 WMC-AAM Advisory.pdf",
              "Unknown"⟩,
         true, ⟨[], Option.none⟩) := by
  constructor
  · rfl
  · decide

/-- C6 (amended): the required-field gate.  A response that does not parse
as JSON (after tolerating a fenced ```json wrapper, which cleans to the
wrapped body) yields a parse error; a parsed object missing any of the seven
required fields `date, payee, key_identifier, payer, currency,
is_trailer_fee, is_management_fee` (`next_step` is not required — it
defaults to `"Unknown"`) yields an error naming exactly the missing fields;
in both cases naming is not invoked and no result record is produced.  A
response missing only `key_identifier` is recorded as a missing-fields
failure naming exactly `key_identifier`. -/
theorem required_field_gate (df : MappingsDf) (obj : JObj) (body : String) :
    (processParsed Option.none df = (.err "Error parsing JSON response", false, df)) ∧
    (¬(requiredFields.filter (fun f => lookupKey obj f = Option.none)).isEmpty →
      processParsed (some obj) df
        = (.err ("Missing required fields in API response: " ++
            String.intercalate ", "
              (requiredFields.filter (fun f => lookupKey obj f = Option.none))),
           false, df)) ∧
    (lookupKey obj "key_identifier" = Option.none →
     lookupKey obj "date" ≠ Option.none →
     lookupKey obj "payee" ≠ Option.none →
     lookupKey obj "payer" ≠ Option.none →
     lookupKey obj "currency" ≠ Option.none →
     lookupKey obj "is_trailer_fee" ≠ Option.none →
     lookupKey obj "is_management_fee" ≠ Option.none →
      processParsed (some obj) df
        = (.err "Missing required fields in API response: key_identifier",
           false, df)) ∧
    (cleanResponse ("```json" ++ body ++ "```") = body) := by
  refine ⟨rfl, fun hm => ?_, fun h0 h1 h2 h3 h4 h5 h6 => ?_, cleanResponse_fence body⟩
  · show processObj obj df = _
    unfold processObj
    rw [if_neg hm]
  · have hmiss : requiredFields.filter (fun f => lookupKey obj f = Option.none)
        = ["key_identifier"] := by
      simp [requiredFields, List.filter_cons, h0, h1, h2, h3, h4, h5, h6]
    show processObj obj df = _
    unfold processObj
    rw [hmiss]
    rfl

/-- Witness for `required_field_gate`: a concrete response missing only
`key_identifier` is rejected naming exactly that field. -/
theorem required_field_gate_witness :
    processParsed
        (some [("date", JVal.str "2024-01-01"), ("payee", JVal.str "A"),
               ("payer", JVal.str "P"), ("currency", JVal.str "HKD"),
               ("is_trailer_fee", JVal.boolean false),
               ("is_management_fee", JVal.boolean true)])
        ⟨[], Option.none⟩
      = (.err "Missing required fields in API response: key_identifier",
         false, ⟨[], Option.none⟩) :=
  (required_field_gate ⟨[], Option.none⟩
      [("date", JVal.str "2024-01-01"), ("payee", JVal.str "A"),
       ("payer", JVal.str "P"), ("currency", JVal.str "HKD"),
       ("is_trailer_fee", JVal.boolean false),
       ("is_management_fee", JVal.boolean true)] "").2.2.1
    (by decide) (by decide) (by decide) (by decide) (by decide) (by decide)
    (by decide)

/-- Helper: a rate-limited attempt with fuel remaining retries with the
exponential-backoff sleep recorded. -/
theorem retryAux_step (fault : Nat → CallOutcome) (fuel k : Nat) (ws : List Nat)
    (m : String) (h : classifyOutcome (fault k) = .error (.rateLimit m)) :
    retryAux fault (fuel + 2) k ws
      = retryAux fault (fuel + 1) (k + 1) (waitAfter k :: ws) := by
  conv_lhs => unfold retryAux
  rw [h]

/-- Helper: the last allowed attempt returns whatever error the call
classified to (tenacity `reraise=True`). -/
theorem retryAux_last (fault : Nat → CallOutcome) (k : Nat) (ws : List Nat)
    (e : GeminiError) (h : classifyOutcome (fault k) = .error e) :
    retryAux fault 1 k ws = ⟨.error e, k, ws.reverse⟩ := by
  conv_lhs => unfold retryAux
  rw [h]

/-- Helper: a fatal (non-rate-limit) error stops the loop at once. -/
theorem retryAux_fatal (fault : Nat → CallOutcome) (fuel k : Nat) (ws : List Nat)
    (m : String) (h : classifyOutcome (fault k) = .error (.fatal m)) :
    retryAux fault (fuel + 2) k ws = ⟨.error (.fatal m), k, ws.reverse⟩ := by
  conv_lhs => unfold retryAux
  rw [h]

/-- Helper: the loop never makes more attempts than its fuel allows. -/
theorem retryAux_attempts_le (fault : Nat → CallOutcome) :
    ∀ (fuel k : Nat) (ws : List Nat), 1 ≤ fuel →
      (retryAux fault fuel k ws).attempts ≤ k + fuel - 1 := by
  intro fuel
  induction fuel with
  | zero => intro k ws h; omega
  | succ n ih =>
    intro k ws _
    cases n with
    | zero =>
      show (retryAux fault 1 k ws).attempts ≤ k + 1 - 1
      conv_lhs => unfold retryAux
      cases hc : classifyOutcome (fault k) with
      | ok t => dsimp only; omega
      | error e => dsimp only; omega
    | succ m =>
      show (retryAux fault (m + 2) k ws).attempts ≤ k + (m + 2) - 1
      conv_lhs => unfold retryAux
      cases hc : classifyOutcome (fault k) with
      | ok t => dsimp only; omega
      | error e =>
        cases e with
        | fatal s => dsimp only; omega
        | rateLimit s =>
          dsimp only
          have := ih (k + 1) (waitAfter k :: ws) (by omega)
          omega

/-- Helper: every sleep the loop takes is capped at `MAX_WAIT`. -/
theorem retryAux_waits_le (fault : Nat → CallOutcome) :
    ∀ (fuel k : Nat) (ws : List Nat), (∀ w ∈ ws, w ≤ MAX_WAIT) →
      ∀ w ∈ (retryAux fault fuel k ws).waits, w ≤ MAX_WAIT := by
  intro fuel
  induction fuel with
  | zero =>
    intro k ws hws w hw
    unfold retryAux at hw
    simp only [List.mem_reverse] at hw
    exact hws w hw
  | succ n ih =>
    intro k ws hws w hw
    cases n with
    | zero =>
      unfold retryAux at hw
      cases hc : classifyOutcome (fault k) with
      | ok t => rw [hc] at hw; simp only [List.mem_reverse] at hw; exact hws w hw
      | error e => rw [hc] at hw; simp only [List.mem_reverse] at hw; exact hws w hw
    | succ m =>
      unfold retryAux at hw
      cases hc : classifyOutcome (fault k) with
      | ok t => rw [hc] at hw; simp only [List.mem_reverse] at hw; exact hws w hw
      | error e =>
        cases e with
        | fatal s =>
          rw [hc] at hw; simp only [List.mem_reverse] at hw; exact hws w hw
        | rateLimit s =>
          rw [hc] at hw
          refine ih (k + 1) (waitAfter k :: ws) ?_ w hw
          intro v hv
          rcases List.mem_cons.mp hv with h | h
          · rw [h]; exact min_le_right _ _
          · exact hws v h

/-- Helper: `isRateLimited` inverted to an existential. -/
theorem isRateLimited_iff (r : Except GeminiError String) :
    isRateLimited r = true ↔ ∃ m, r = .error (.rateLimit m) := by
  cases r with
  | ok t => simp [isRateLimited]
  | error e => cases e <;> simp [isRateLimited]

/-- C5 counterexample: with an HTTP 429 fault injected on every attempt the
controller makes exactly 5 attempts, but the backoff sleeps are the four
waits `[1, 2, 4, 8]` (total 15) between the five attempts — not the five
delays `1+2+4+8+16 = 31` the claim states. -/
theorem retry_backoff_cx :
    (call_gemini_api_with_retry
        (fun _ => .exn "429 Too Many Requests")).attempts = 5 ∧
    (call_gemini_api_with_retry
        (fun _ => .exn "429 Too Many Requests")).waits = [1, 2, 4, 8] ∧
    (call_gemini_api_with_retry
        (fun _ => .exn "429 Too Many Requests")).waits ≠ [1, 2, 4, 8, 16] ∧
    ((call_gemini_api_with_retry
        (fun _ => .exn "429 Too Many Requests")).waits).sum = 15 := by
  refine ⟨?_, ?_, ?_, ?_⟩ <;> decide

/-- C5 (amended): the retry controller.  A failure is classified
Rate-Limited exactly when the callee's result is empty or the raised
error's text carries a 429 indicator; any other error is returned
immediately after a single attempt, wrapped in the unexpected-error
message.  Rate-Limited failures are retried with tenacity's exponential
backoff `min(1 * 2^(k-1), 32)` after failed attempt `k`, for at most 5
attempts total; under a rate-limit fault on every attempt exactly 5
attempts are made with the four backoff sleeps `[1, 2, 4, 8]` between
them, after which the last underlying error is re-raised and wrapped in
the terminal rate-limit-exhausted message. -/
theorem retry_controller (fault : Nat → CallOutcome) :
    (∀ c : CallOutcome, isRateLimited (classifyOutcome c) = true ↔
      (c = .empty ∨ ∃ m, c = .exn m ∧ pyContains m "429" = true)) ∧
    (∀ m, classifyOutcome (fault 1) = .error (.fatal m) →
      call_gemini_api_with_retry fault = ⟨.error (.fatal m), 1, []⟩ ∧
      call_gemini_api fault = .error ("Unexpected error during API call: " ++ m)) ∧
    ((∀ k, isRateLimited (classifyOutcome (fault k)) = true) →
      (call_gemini_api_with_retry fault).attempts = 5 ∧
      (call_gemini_api_with_retry fault).waits = [1, 2, 4, 8] ∧
      (call_gemini_api_with_retry fault).result = classifyOutcome (fault 5) ∧
      (∀ m, classifyOutcome (fault 5) = .error (.rateLimit m) →
        call_gemini_api fault
          = .error ("Rate limit error after 5 retries. Last error: " ++ m ++
              ". Please wait a few minutes before trying again."))) ∧
    ((call_gemini_api_with_retry fault).attempts ≤ 5 ∧
      ∀ w ∈ (call_gemini_api_with_retry fault).waits, w ≤ 32) := by
  refine ⟨?_, fun m hm => ?_, fun hRL => ?_, ?_, ?_⟩
  · intro c
    cases c with
    | ok t => simp [classifyOutcome, isRateLimited]
    | empty => simp [classifyOutcome, isRateLimited]
    | exn m =>
      by_cases h : pyContains m "429" = true
      · simp [classifyOutcome, isRateLimited, h]
      · simp only [Bool.not_eq_true] at h
        simp [classifyOutcome, isRateLimited, h]
  · constructor
    · exact retryAux_fatal fault 3 1 [] m hm
    · unfold call_gemini_api
      rw [show call_gemini_api_with_retry fault = ⟨.error (.fatal m), 1, []⟩ from
        retryAux_fatal fault 3 1 [] m hm]
  · obtain ⟨m1, hm1⟩ := (isRateLimited_iff _).mp (hRL 1)
    obtain ⟨m2, hm2⟩ := (isRateLimited_iff _).mp (hRL 2)
    obtain ⟨m3, hm3⟩ := (isRateLimited_iff _).mp (hRL 3)
    obtain ⟨m4, hm4⟩ := (isRateLimited_iff _).mp (hRL 4)
    obtain ⟨m5, hm5⟩ := (isRateLimited_iff _).mp (hRL 5)
    have htrace : call_gemini_api_with_retry fault
        = ⟨.error (.rateLimit m5), 5,
           [waitAfter 4, waitAfter 3, waitAfter 2, waitAfter 1].reverse⟩ := by
      show retryAux fault 5 1 [] = _
      rw [retryAux_step fault 3 1 [] m1 hm1,
        retryAux_step fault 2 2 [waitAfter 1] m2 hm2,
        retryAux_step fault 1 3 [waitAfter 2, waitAfter 1] m3 hm3,
        retryAux_step fault 0 4 [waitAfter 3, waitAfter 2, waitAfter 1] m4 hm4,
        retryAux_last fault 5 [waitAfter 4, waitAfter 3, waitAfter 2, waitAfter 1]
          (.rateLimit m5) hm5]
    have hA : (call_gemini_api_with_retry fault).attempts = 5 := by rw [htrace]
    have hW : (call_gemini_api_with_retry fault).waits = [1, 2, 4, 8] := by
      rw [htrace]
      dsimp only
      decide
    have hR : (call_gemini_api_with_retry fault).result = classifyOutcome (fault 5) := by
      rw [htrace, hm5]
    refine ⟨hA, hW, hR, fun m hm => ?_⟩
    unfold call_gemini_api
    rw [htrace]
    rw [hm5] at hm
    cases hm
    rfl
  · exact retryAux_attempts_le fault 5 1 [] (by omega)
  · exact retryAux_waits_le fault 5 1 [] (by intro w hw; cases hw)

/-- Witness for `retry_controller`: a persistent 429 fault yields 5 attempts
with sleeps `[1, 2, 4, 8]` and the wrapped terminal message; a non-429 fault
stops after one attempt with the unexpected-error message. -/
theorem retry_controller_witness :
    (call_gemini_api_with_retry (fun _ => .exn "quota 429 hit")).attempts = 5 ∧
    (call_gemini_api_with_retry (fun _ => .exn "quota 429 hit")).waits
      = [1, 2, 4, 8] ∧
    call_gemini_api (fun _ => .exn "quota 429 hit")
      = .error ("Rate limit error after 5 retries. Last error: " ++
          "Rate limit exceeded: quota 429 hit" ++
          ". Please wait a few minutes before trying again.") ∧
    call_gemini_api (fun _ => .exn "boom")
      = .error ("Unexpected error during API call: " ++ "boom") :=
  ⟨((retry_controller (fun _ => .exn "quota 429 hit")).2.2.1
      (by intro k; decide)).1,
   ((retry_controller (fun _ => .exn "quota 429 hit")).2.2.1
      (by intro k; decide)).2.1,
   ((retry_controller (fun _ => .exn "quota 429 hit")).2.2.1
      (by intro k; decide)).2.2.2 "Rate limit exceeded: quota 429 hit" rfl,
   ((retry_controller (fun _ => .exn "boom")).2.1 "boom" rfl).2⟩

end Processing

namespace Teams

/-- Helper: the replacement step leaves no disallowed character behind. -/
theorem mem_replaceInvalid (cs : List Char) (c : Char) (h : c ∈ replaceInvalid cs) :
    invalidChars.contains c = false := by
  unfold replaceInvalid at h
  obtain ⟨a, _, ha⟩ := List.mem_map.mp h
  by_cases hia : invalidChars.contains a = true
  · rw [if_pos hia] at ha
    rw [← ha]
    decide
  · rw [if_neg hia] at ha
    rw [← ha]
    simpa using hia

/-- Helper: stripping whitespace only removes characters. -/
theorem mem_trimChars (cs : List Char) (c : Char) (h : c ∈ trimChars cs) : c ∈ cs := by
  unfold trimChars at h
  rw [List.mem_reverse] at h
  have h1 := (List.dropWhile_sublist (l := (cs.dropWhile Char.isWhitespace).reverse)
    (p := Char.isWhitespace)).subset h
  rw [List.mem_reverse] at h1
  exact (List.dropWhile_sublist (l := cs) (p := Char.isWhitespace)).subset h1

/-- Helper: stripping leading dots only removes characters. -/
theorem mem_dropLeadingDots (cs : List Char) (c : Char) (h : c ∈ dropLeadingDots cs) :
    c ∈ cs :=
  (List.dropWhile_sublist (l := cs) (p := fun x => x = '.')).subset h

/-- Helper: the two splitext components reassemble to the name. -/
theorem splitExt_join (cs : List Char) :
    (splitExtChars cs).1 ++ (splitExtChars cs).2 = cs := by
  rcases h : lastDotIdx? cs with _ | i
  · simp [splitExtChars, h]
  · by_cases ha : (cs.take i).all (fun x => x = '.')
    · simp [splitExtChars, h, ha]
    · simp [splitExtChars, h, ha, List.take_append_drop]

/-- Helper: both splitext components are made of the name's characters. -/
theorem mem_splitExt (cs : List Char) (c : Char) :
    (c ∈ (splitExtChars cs).1 → c ∈ cs) ∧ (c ∈ (splitExtChars cs).2 → c ∈ cs) := by
  constructor
  · intro hc
    rw [← splitExt_join cs]
    exact List.mem_append_left _ hc
  · intro hc
    rw [← splitExt_join cs]
    exact List.mem_append_right _ hc

/-- Helper: truncation only removes characters. -/
theorem mem_truncate240 (cs : List Char) (c : Char) (h : c ∈ truncate240 cs) : c ∈ cs := by
  unfold truncate240 at h
  by_cases hl : cs.length > 240
  · rw [if_pos hl] at h
    rcases List.mem_append.mp h with h | h
    · unfold pySliceTo at h
      by_cases hk : (0 : Int) ≤ 240 - (splitExtChars cs).2.length
      · rw [if_pos hk] at h
        exact (mem_splitExt cs c).1 (List.take_subset _ _ h)
      · rw [if_neg hk] at h
        exact (mem_splitExt cs c).1 (List.take_subset _ _ h)
    · exact (mem_splitExt cs c).2 h
  · rw [if_neg hl] at h
    exact h

/-- Helper: the sanitized name contains no disallowed character. -/
theorem sanitize_no_invalid (cs : List Char) (c : Char) (h : c ∈ sanitizeChars cs) :
    invalidChars.contains c = false :=
  mem_replaceInvalid _ _ (mem_trimChars _ _ (mem_dropLeadingDots _ _
    (mem_truncate240 _ _ h)))

/-- Helper: after stripping leading dots, the head is not a dot. -/
theorem dropLeadingDots_head (cs : List Char) :
    ∀ c, (dropLeadingDots cs).head? = some c → ¬c = '.' := by
  induction cs with
  | nil => intro c h; simp [dropLeadingDots] at h
  | cons a t ih =>
    intro c h
    by_cases ha : a = '.'
    · rw [show dropLeadingDots (a :: t) = dropLeadingDots t from by
        simp [dropLeadingDots, List.dropWhile_cons, ha]] at h
      exact ih c h
    · rw [show dropLeadingDots (a :: t) = a :: t from by
        simp [dropLeadingDots, List.dropWhile_cons, ha]] at h
      simp only [List.head?_cons, Option.some_inj] at h
      rw [← h]
      exact ha

theorem head?_take (l : List Char) (m : Nat) (hm : 1 ≤ m) :
    (l.take m).head? = l.head? := by
  cases l with
  | nil => simp
  | cons a t =>
    cases m with
    | zero => omega
    | succ n => simp [List.take]

/-- Helper: when a (non-degenerate) extension was split off, the name part
begins where the whole name begins. -/
theorem splitExt_fst_head (cs : List Char) (h2 : (splitExtChars cs).2 ≠ []) :
    (splitExtChars cs).1.head? = cs.head? := by
  rcases h : lastDotIdx? cs with _ | i
  · have he : splitExtChars cs = (cs, []) := by simp [splitExtChars, h]
    rw [he] at h2
    simp at h2
  · by_cases ha : (cs.take i).all (fun x => x = '.')
    · have he : splitExtChars cs = (cs, []) := by simp [splitExtChars, h, ha]
      rw [he] at h2
      simp at h2
    · have hsp : splitExtChars cs = (cs.take i, cs.drop i) := by
        simp [splitExtChars, h, ha]
      rw [hsp] at h2 ⊢
      have hi : 1 ≤ i := by
        by_contra hi0
        have hz : i = 0 := by omega
        subst hz
        simp at ha
      exact head?_take cs i hi

set_option maxRecDepth 4000 in
/-- C7 counterexample: sanitization strips whitespace before stripping
leading dots, so `". a.pdf"` sanitizes to `" a.pdf"`, which retains leading
whitespace; and a name whose extension alone exceeds 240 characters defeats
the truncation, leaving a 301-character result. -/
theorem sanitize_filename_cx :
    sanitize_filename ". a.pdf" = " a.pdf" ∧
    (sanitize_filename ". a.pdf").data.head? = some ' ' ∧
    (sanitizeChars ('x' :: '.' :: List.replicate 300 'a')).length = 301 := by
  refine ⟨by decide, by decide, by decide⟩

/-- C7 (amended): delivery-side filename sanitization.  The sanitized name
never contains one of the disallowed characters `" * : < > ? / \ | # % ~`
or braces (they are replaced by underscores, not removed); whitespace is
stripped before leading dots, so whitespace shielded by leading dots can
survive at the front; whenever the extension of the whitespace-and-dot-
stripped name is shorter than 240 characters, the result does not begin
with a dot and is at most 240 characters long; the result always ends with
that extension; and the sanitized name is the one the delivery protocol
probes for and writes under. -/
theorem delivery_sanitization (name : String) (store : Store) (payload : List Nat) :
    (∀ c ∈ (sanitize_filename name).data, invalidChars.contains c = false) ∧
    ((splitExtChars (dropLeadingDots (trimChars (replaceInvalid name.data)))).2.length
        < 240 →
      (sanitize_filename name).data.head? ≠ some '.' ∧
      (sanitize_filename name).data.length ≤ 240) ∧
    (∃ pre, (sanitize_filename name).data
      = pre ++ (splitExtChars (dropLeadingDots (trimChars
          (replaceInvalid name.data)))).2) ∧
    (upload_with_sharepoint_api store name payload).uploadName
      = sanitize_filename name := by
  refine ⟨fun c hc => sanitize_no_invalid _ _ hc, fun hext => ?_, ?_, ?_⟩
  · show (truncate240 (dropLeadingDots (trimChars (replaceInvalid name.data)))).head?
        ≠ some '.' ∧
      (truncate240 (dropLeadingDots (trimChars (replaceInvalid name.data)))).length
        ≤ 240
    have hhead : ∀ c, (dropLeadingDots (trimChars (replaceInvalid name.data))).head?
        = some c → ¬c = '.' := dropLeadingDots_head _
    by_cases hl : (dropLeadingDots (trimChars (replaceInvalid name.data))).length > 240
    · have htr : truncate240 (dropLeadingDots (trimChars (replaceInvalid name.data)))
          = pySliceTo (splitExtChars (dropLeadingDots (trimChars
              (replaceInvalid name.data)))).1
              ((240 : Int) - (splitExtChars (dropLeadingDots (trimChars
                (replaceInvalid name.data)))).2.length)
            ++ (splitExtChars (dropLeadingDots (trimChars
                (replaceInvalid name.data)))).2 := by
        unfold truncate240
        rw [if_pos hl]
      have hk : (0 : Int) ≤ 240 - (splitExtChars (dropLeadingDots (trimChars
          (replaceInvalid name.data)))).2.length := by omega
      have hsl : pySliceTo (splitExtChars (dropLeadingDots (trimChars
            (replaceInvalid name.data)))).1
            ((240 : Int) - (splitExtChars (dropLeadingDots (trimChars
              (replaceInvalid name.data)))).2.length)
          = (splitExtChars (dropLeadingDots (trimChars
              (replaceInvalid name.data)))).1.take
              (240 - (splitExtChars (dropLeadingDots (trimChars
                (replaceInvalid name.data)))).2.length) := by
        unfold pySliceTo
        rw [if_pos hk]
        congr 1
        omega
      constructor
      · rw [htr, hsl]
        have hm : 1 ≤ 240 - (splitExtChars (dropLeadingDots (trimChars
            (replaceInvalid name.data)))).2.length := by omega
        by_cases hsnd : (splitExtChars (dropLeadingDots (trimChars
            (replaceInvalid name.data)))).2 = []
        · rw [hsnd, List.append_nil, head?_take _ _ (by simp)]
          have hfst : (splitExtChars (dropLeadingDots (trimChars
              (replaceInvalid name.data)))).1
              = dropLeadingDots (trimChars (replaceInvalid name.data)) := by
            have := splitExt_join (dropLeadingDots (trimChars
              (replaceInvalid name.data)))
            rw [hsnd, List.append_nil] at this
            exact this
          rw [hfst]
          intro hcon
          exact hhead '.' hcon rfl
        · have hfh := splitExt_fst_head _ hsnd
          cases hcs : (dropLeadingDots (trimChars (replaceInvalid name.data))).head? with
          | none =>
            exfalso
            cases hnil : dropLeadingDots (trimChars (replaceInvalid name.data)) with
            | nil => rw [hnil] at hl; simp at hl
            | cons a t => rw [hnil] at hcs; simp at hcs
          | some c0 =>
            rw [hcs] at hfh
            cases hfst : (splitExtChars (dropLeadingDots (trimChars
                (replaceInvalid name.data)))).1 with
            | nil => rw [hfst] at hfh; simp at hfh
            | cons a t =>
              rw [hfst] at hfh
              simp only [List.head?_cons, Option.some_inj] at hfh
              have htk : ((a :: t).take (240 - (splitExtChars (dropLeadingDots
                  (trimChars (replaceInvalid name.data)))).2.length)).head?
                  = some a := by
                rw [head?_take _ _ hm]
                rfl
              cases htkl : (a :: t).take (240 - (splitExtChars (dropLeadingDots
                  (trimChars (replaceInvalid name.data)))).2.length) with
              | nil => rw [htkl] at htk; simp at htk
              | cons b u =>
                rw [htkl] at htk
                simp only [List.head?_cons, Option.some_inj] at htk
                simp only [List.cons_append, List.head?_cons, ne_eq,
                  Option.some_inj]
                rw [htk, hfh]
                exact fun hcon => hhead c0 hcs hcon
      · rw [htr, hsl]
        rw [List.length_append, List.length_take]
        omega
    · have htr : truncate240 (dropLeadingDots (trimChars (replaceInvalid name.data)))
          = dropLeadingDots (trimChars (replaceInvalid name.data)) := by
        unfold truncate240
        rw [if_neg hl]
      rw [htr]
      constructor
      · intro hcon
        exact hhead '.' hcon rfl
      · omega
  · show ∃ pre, truncate240 (dropLeadingDots (trimChars (replaceInvalid name.data)))
        = pre ++ (splitExtChars (dropLeadingDots (trimChars
            (replaceInvalid name.data)))).2
    by_cases hl : (dropLeadingDots (trimChars (replaceInvalid name.data))).length > 240
    · refine ⟨pySliceTo (splitExtChars (dropLeadingDots (trimChars
          (replaceInvalid name.data)))).1
          ((240 : Int) - (splitExtChars (dropLeadingDots (trimChars
            (replaceInvalid name.data)))).2.length), ?_⟩
      unfold truncate240
      rw [if_pos hl]
    · refine ⟨(splitExtChars (dropLeadingDots (trimChars
          (replaceInvalid name.data)))).1, ?_⟩
      unfold truncate240
      rw [if_neg hl]
      exact (splitExt_join _).symm
  · unfold upload_with_sharepoint_api
    dsimp only
    split
    · split <;> rfl
    · split <;> rfl

/-- Witness for `delivery_sanitization` at a concrete name with a short
extension. -/
theorem delivery_sanitization_witness :
    (sanitize_filename "e cheque.pdf").data.head? ≠ some '.' ∧
    (sanitize_filename "e cheque.pdf").data.length ≤ 240 :=
  (delivery_sanitization "e cheque.pdf" [] []).2.1 (by decide)

/-- Helper: replacing an item's content in place changes no name, so every
name count is preserved. -/
theorem updateFirst_countName (s : Store) (nm : String) (c : List Nat) (nm' : String) :
    countName (updateFirstContent s nm c) nm' = countName s nm' := by
  induction s with
  | nil => rfl
  | cons it rest ih =>
    unfold updateFirstContent
    by_cases h : it.name = nm
    · rw [if_pos h]
      unfold countName at ih ⊢
      simp [List.countP_cons]
    · rw [if_neg h]
      unfold countName at ih ⊢
      simp [List.countP_cons, ih]

/-- Helper: a failed existence probe means no item carries the name. -/
theorem find?_eq_none_countName (s : Store) (nm : String)
    (h : s.find? (fun it => it.name = nm) = Option.none) : countName s nm = 0 := by
  unfold countName
  rw [List.countP_eq_zero]
  intro it hit
  simpa using List.find?_eq_none.mp h it hit

/-- Helper: a successful existence probe means some item carries the name. -/
theorem find?_some_countName_pos (s : Store) (nm : String) (it : StoreItem)
    (h : s.find? (fun x => x.name = nm) = some it) : 1 ≤ countName s nm := by
  unfold countName
  have hm := List.mem_of_find?_eq_some h
  have hp := List.find?_some h
  have h0 : 0 < List.countP (fun x => decide (x.name = nm)) s := by
    rw [List.countP_pos_iff]
    exact ⟨it, hm, hp⟩
  omega

/-- Helper: appending to a folder whose probe came up empty makes the probe
look only at the appended item. -/
theorem find?_append_of_none (s : Store) (x : StoreItem) (p : StoreItem → Bool)
    (h : s.find? p = Option.none) : (s ++ [x]).find? p = [x].find? p := by
  induction s with
  | nil => rfl
  | cons it rest ih =>
    rw [List.cons_append]
    by_cases hp : p it = true
    · rw [List.find?_cons_of_pos _ hp] at h
      cases h
    · rw [List.find?_cons_of_neg _ hp] at h
      rw [List.find?_cons_of_neg _ hp]
      exact ih h

/-- Helper: after an update-in-place the probe finds the updated content
under the same name. -/
theorem find?_updateFirst (s : Store) (nm : String) (c : List Nat) (it : StoreItem)
    (h : s.find? (fun x => x.name = nm) = some it) :
    (updateFirstContent s nm c).find? (fun x => x.name = nm) = some ⟨it.name, c⟩ := by
  induction s with
  | nil => cases h
  | cons a rest ih =>
    by_cases hp : a.name = nm
    · rw [List.find?_cons_of_pos _ (by simpa using hp)] at h
      have ha : a = it := by
        simpa using h
      unfold updateFirstContent
      rw [if_pos hp]
      rw [List.find?_cons_of_pos _ (by simpa using hp)]
      rw [ha]
    · rw [List.find?_cons_of_neg _ (by simpa using hp)] at h
      unfold updateFirstContent
      rw [if_neg hp]
      rw [List.find?_cons_of_neg _ (by simpa using hp)]
      exact ih h

/-- Helper: updating the first match to the content it already holds is a
no-op on the folder. -/
theorem updateFirst_id (s : Store) (nm : String) (c : List Nat) (it : StoreItem)
    (h : s.find? (fun x => x.name = nm) = some it) (hc : it.content = c) :
    updateFirstContent s nm c = s := by
  induction s with
  | nil => cases h
  | cons a rest ih =>
    by_cases hp : a.name = nm
    · rw [List.find?_cons_of_pos _ (by simpa using hp)] at h
      have ha : a = it := by simpa using h
      unfold updateFirstContent
      rw [if_pos hp]
      have hx : (⟨a.name, c⟩ : StoreItem) = a := by
        cases a
        subst ha
        simp_all
      rw [hx]
    · rw [List.find?_cons_of_neg _ (by simpa using hp)] at h
      unfold updateFirstContent
      rw [if_neg hp]
      rw [ih h]

/-- Helper: the store effect of one delivery — update-in-place when the
probe found the name, append otherwise. -/
theorem upload_store (store : Store) (fn : String) (payload : List Nat) :
    (upload_with_sharepoint_api store fn payload).store
      = (if (store.find? (fun it => it.name = sanitize_filename fn)).isSome then
          updateFirstContent store (sanitize_filename fn) payload
        else store ++ [⟨sanitize_filename fn, payload⟩]) := by
  unfold upload_with_sharepoint_api
  dsimp only
  split <;> split <;> simp_all

/-- Helper: the delivery model always reports success on the happy path. -/
theorem upload_success (store : Store) (fn : String) (payload : List Nat) :
    (upload_with_sharepoint_api store fn payload).success = true := by
  unfold upload_with_sharepoint_api
  dsimp only
  split <;> split <;> rfl

/-- Helper: the delivery reports exactly what the existence probe saw. -/
theorem upload_existed (store : Store) (fn : String) (payload : List Nat) :
    (upload_with_sharepoint_api store fn payload).existedBefore
      = (store.find? (fun it => it.name = sanitize_filename fn)).isSome := by
  unfold upload_with_sharepoint_api
  dsimp only
  split <;> split <;> simp_all

/-- Helper: the transfer strategy is chosen purely by payload size, carrying
the probe's result. -/
theorem upload_transfer (store : Store) (fn : String) (payload : List Nat) :
    (upload_with_sharepoint_api store fn payload).transfer
      = (if payload.length < 4 * MiB then
          .direct ((store.find? (fun it => it.name = sanitize_filename fn)).isSome)
        else
          .session ((store.find? (fun it => it.name = sanitize_filename fn)).isSome)
            (chunkRanges payload.length) payload.length) := by
  unfold upload_with_sharepoint_api
  dsimp only
  split <;> split <;> simp_all

/-- C1: idempotent delivery.  Against a well-formed folder (at most one item
under the sanitized name), a delivery succeeds; delivering the identical
payload, filename and target a second time succeeds as well, leaves the
folder unchanged with exactly one item under the sanitized name holding the
payload, and runs as an update-in-place — its existence probe (which always
precedes any write) finds the item the first call wrote. -/
theorem idempotent_delivery (store : Store) (filename : String) (payload : List Nat)
    (h : countName store (sanitize_filename filename) ≤ 1)
    (r1 r2 : DeliverResult)
    (h1 : r1 = upload_with_sharepoint_api store filename payload)
    (h2 : r2 = upload_with_sharepoint_api r1.store filename payload) :
    r1.success = true ∧ r2.success = true ∧
    countName r2.store (sanitize_filename filename) = 1 ∧
    findContent r2.store (sanitize_filename filename) = some payload ∧
    r2.store = r1.store ∧
    r2.existedBefore = true := by
  subst h2
  subst h1
  cases hf : store.find? (fun it => it.name = sanitize_filename filename) with
  | none =>
    have hs1 : (upload_with_sharepoint_api store filename payload).store
        = store ++ [(⟨sanitize_filename filename, payload⟩ : StoreItem)] := by
      rw [upload_store, hf]
      rfl
    have hfind1 : (store ++ [(⟨sanitize_filename filename, payload⟩ : StoreItem)]).find?
        (fun it => it.name = sanitize_filename filename)
        = some ⟨sanitize_filename filename, payload⟩ := by
      rw [find?_append_of_none _ _ _ hf]
      simp [List.find?]
    have hupd : updateFirstContent (store ++ [(⟨sanitize_filename filename, payload⟩ : StoreItem)])
        (sanitize_filename filename) payload
        = store ++ [(⟨sanitize_filename filename, payload⟩ : StoreItem)] :=
      updateFirst_id _ _ _ _ hfind1 rfl
    have hs2 : (upload_with_sharepoint_api
        (upload_with_sharepoint_api store filename payload).store filename
        payload).store = store ++ [(⟨sanitize_filename filename, payload⟩ : StoreItem)] := by
      rw [upload_store, hs1, hfind1]
      simpa using hupd
    have hcount : countName (store ++ [(⟨sanitize_filename filename, payload⟩ : StoreItem)])
        (sanitize_filename filename) = 1 := by
      unfold countName
      rw [List.countP_append]
      have hc0 : countName store (sanitize_filename filename) = 0 :=
        find?_eq_none_countName _ _ hf
      unfold countName at hc0
      rw [hc0]
      simp
    refine ⟨upload_success _ _ _, upload_success _ _ _, ?_, ?_, ?_, ?_⟩
    · rw [hs2]
      exact hcount
    · rw [hs2]
      unfold findContent
      rw [hfind1]
      rfl
    · rw [hs2, hs1]
    · rw [upload_existed, hs1, hfind1]
      rfl
  | some it =>
    have hs1 : (upload_with_sharepoint_api store filename payload).store
        = updateFirstContent store (sanitize_filename filename) payload := by
      rw [upload_store, hf]
      rfl
    have hfind1 : (updateFirstContent store (sanitize_filename filename)
        payload).find? (fun x => x.name = sanitize_filename filename)
        = some ⟨it.name, payload⟩ := find?_updateFirst _ _ _ _ hf
    have hupd : updateFirstContent (updateFirstContent store
        (sanitize_filename filename) payload) (sanitize_filename filename) payload
        = updateFirstContent store (sanitize_filename filename) payload :=
      updateFirst_id _ _ _ _ hfind1 rfl
    have hs2 : (upload_with_sharepoint_api
        (upload_with_sharepoint_api store filename payload).store filename
        payload).store
        = updateFirstContent store (sanitize_filename filename) payload := by
      rw [upload_store, hs1, hfind1]
      simpa using hupd
    have hcount : countName (updateFirstContent store (sanitize_filename filename)
        payload) (sanitize_filename filename) = 1 := by
      rw [updateFirst_countName]
      exact le_antisymm h (find?_some_countName_pos _ _ _ hf)
    refine ⟨upload_success _ _ _, upload_success _ _ _, ?_, ?_, ?_, ?_⟩
    · rw [hs2]
      exact hcount
    · rw [hs2]
      unfold findContent
      rw [hfind1]
      rfl
    · rw [hs2, hs1]
    · rw [upload_existed, hs1, hfind1]
      rfl

/-- Witness for `idempotent_delivery`: delivering a one-byte payload twice
to an empty folder leaves exactly one item with the payload. -/
theorem idempotent_delivery_witness :
    countName (upload_with_sharepoint_api
        (upload_with_sharepoint_api [] "a.pdf" [0]).store "a.pdf" [0]).store
      (sanitize_filename "a.pdf") = 1 ∧
    findContent (upload_with_sharepoint_api
        (upload_with_sharepoint_api [] "a.pdf" [0]).store "a.pdf" [0]).store
      (sanitize_filename "a.pdf") = some [0] :=
  ⟨(idempotent_delivery [] "a.pdf" [0] (by decide) _ _ rfl rfl).2.2.1,
   (idempotent_delivery [] "a.pdf" [0] (by decide) _ _ rfl rfl).2.2.2.1⟩

/-- Helper: the chunk loop stops once everything is uploaded. -/
theorem chunkAux_nil (fuel total uploaded : Nat) (h : ¬uploaded < total) :
    chunkRangesAux fuel total uploaded = [] := by
  cases fuel with
  | zero => rfl
  | succ n =>
    unfold chunkRangesAux
    rw [if_neg h]

/-- Helper: the ranges the chunk loop emits from position `uploaded` are
contiguous, end exactly at `total`, are each at most one MiB long, and all
but the last are exactly one MiB long. -/
theorem chunkAux_spec (fuel : Nat) :
    ∀ total uploaded, total - uploaded ≤ fuel → uploaded ≤ total →
      chunksFrom uploaded (chunkRangesAux fuel total uploaded) ∧
      rangesEnd uploaded (chunkRangesAux fuel total uploaded) = total ∧
      (∀ r ∈ chunkRangesAux fuel total uploaded, rangeLen r ≤ MiB) ∧
      (∀ r ∈ (chunkRangesAux fuel total uploaded).dropLast, rangeLen r = MiB) := by
  induction fuel with
  | zero =>
    intro total uploaded hf hu
    have he : uploaded = total := by omega
    subst he
    refine ⟨trivial, rfl, ?_, ?_⟩ <;> intro r hr <;> simp [chunkRangesAux] at hr
  | succ n ih =>
    intro total uploaded hf hu
    by_cases hlt : uploaded < total
    · have hMiB : 1 ≤ MiB := by decide
      have hmin1 : 1 ≤ min MiB (total - uploaded) := by omega
      have hminle : min MiB (total - uploaded) ≤ total - uploaded :=
        min_le_right _ _
      unfold chunkRangesAux
      rw [if_pos hlt]
      obtain ⟨ih1, ih2, ih3, ih4⟩ := ih total (uploaded + min MiB (total - uploaded))
        (by omega) (by omega)
      have he : uploaded + min MiB (total - uploaded) - 1 + 1
          = uploaded + min MiB (total - uploaded) := by omega
      refine ⟨⟨rfl, by omega, ?_⟩, ?_, ?_, ?_⟩
      · rw [he]
        exact ih1
      · show rangesEnd (uploaded + min MiB (total - uploaded) - 1 + 1) _ = total
        rw [he]
        exact ih2
      · intro r hr
        rcases List.mem_cons.mp hr with hr | hr
        · rw [hr]
          unfold rangeLen
          simp
          omega
        · exact ih3 r hr
      · intro r hr
        cases hrest : chunkRangesAux n total (uploaded + min MiB (total - uploaded)) with
        | nil =>
          rw [hrest] at hr
          simp at hr
        | cons b bs =>
          rw [hrest] at hr
          rw [List.dropLast_cons₂] at hr
          have hlt2 : uploaded + min MiB (total - uploaded) < total := by
            by_contra hge
            rw [chunkAux_nil n total _ hge] at hrest
            simp at hrest
          have hminMiB : min MiB (total - uploaded) = MiB := by omega
          rcases List.mem_cons.mp hr with hr | hr
          · rw [hr]
            unfold rangeLen
            simp
            omega
          · refine ih4 r ?_
            rw [hrest]
            exact hr
    · rw [chunkAux_nil _ _ _ hlt]
      have he : uploaded = total := by omega
      subst he
      refine ⟨trivial, rfl, ?_, ?_⟩ <;> intro r hr <;> simp at hr

/-- C2: transfer strategy by size.  Payloads strictly under 4 MiB go in one
single-shot request, to the existing item's content endpoint exactly when
the existence probe found one, else to the create-by-path endpoint;
payloads at or above 4 MiB go through an upload session whose 1 MiB chunk
requests carry `start-end/total` ranges that are contiguous,
non-overlapping, cover exactly the payload, are each at most 1 MiB, and are
exactly 1 MiB except possibly the last; a 5 MiB payload produces exactly 5
chunk requests of 1 MiB each. -/
theorem transfer_strategy (store : Store) (filename : String) (payload : List Nat) :
    (payload.length < 4 * MiB →
      (upload_with_sharepoint_api store filename payload).transfer
        = .direct ((store.find?
            (fun it => it.name = sanitize_filename filename)).isSome)) ∧
    (4 * MiB ≤ payload.length →
      (upload_with_sharepoint_api store filename payload).transfer
        = .session ((store.find?
              (fun it => it.name = sanitize_filename filename)).isSome)
            (chunkRanges payload.length) payload.length ∧
      chunksFrom 0 (chunkRanges payload.length) ∧
      rangesEnd 0 (chunkRanges payload.length) = payload.length ∧
      (∀ r ∈ chunkRanges payload.length, rangeLen r ≤ MiB) ∧
      (∀ r ∈ (chunkRanges payload.length).dropLast, rangeLen r = MiB)) ∧
    chunkRanges (5 * MiB)
      = [(0, MiB - 1), (MiB, 2 * MiB - 1), (2 * MiB, 3 * MiB - 1),
         (3 * MiB, 4 * MiB - 1), (4 * MiB, 5 * MiB - 1)] := by
  refine ⟨fun hsize => ?_, fun hsize => ?_, by decide⟩
  · rw [upload_transfer, if_pos hsize]
  · have hspec := chunkAux_spec payload.length payload.length 0 (by omega) (by omega)
    exact ⟨by rw [upload_transfer, if_neg (by omega)], hspec.1, hspec.2.1,
      hspec.2.2.1, hspec.2.2.2⟩

/-- Witness for `transfer_strategy`: a 3-byte payload to an empty folder is
sent single-shot as a create; a 5 MiB payload is sent as a session whose
ranges are the five 1 MiB chunks. -/
theorem transfer_strategy_witness :
    (upload_with_sharepoint_api [] "a.pdf" [7, 7, 7]).transfer
      = .direct (([] : Store).find?
          (fun it => it.name = sanitize_filename "a.pdf")).isSome ∧
    (upload_with_sharepoint_api [] "b.pdf" (List.replicate (5 * MiB) 0)).transfer
      = .session (([] : Store).find?
            (fun it => it.name = sanitize_filename "b.pdf")).isSome
          (chunkRanges (List.replicate (5 * MiB) 0).length)
          (List.replicate (5 * MiB) 0).length :=
  ⟨(transfer_strategy [] "a.pdf" [7, 7, 7]).1 (by decide),
   ((transfer_strategy [] "b.pdf" (List.replicate (5 * MiB) 0)).2.1
      (by rw [List.length_replicate]; decide)).1⟩

end Teams

/-- C9: batch failure isolation.  Both batch loops process documents in
input order and never abort: `process_echeques` splits any input list into
the result records of the successes and the `{filename, error}` records of
the failures, in order, with one record per input document (the lengths add
up, and the loop is a homomorphism over list concatenation, so one
document's outcome cannot affect the records of the others); the upload
loop of `upload_files_to_teams` emits exactly one success-or-failure record
per input file, in order, each carrying that file's name and its own upload
outcome, and is likewise a homomorphism over concatenation. -/
theorem batch_failure_isolation
    (outcome : Processing.FileInfo → Except String Processing.ProcResult)
    (uploadOne : Teams.UploadFile → Bool × Option String) :
    (∀ files, (Processing.process_echeques outcome files).1.length
        + (Processing.process_echeques outcome files).2.length = files.length) ∧
    (∀ files, (Processing.process_echeques outcome files).1
        = files.filterMap (fun f => match outcome f with
            | .ok r => some (f, r)
            | .error _ => Option.none)) ∧
    (∀ files, (Processing.process_echeques outcome files).2
        = files.filterMap (fun f => match outcome f with
            | .error e => some (f.filename, e)
            | .ok _ => Option.none)) ∧
    (∀ a b, Processing.process_echeques outcome (a ++ b)
        = ((Processing.process_echeques outcome a).1
            ++ (Processing.process_echeques outcome b).1,
           (Processing.process_echeques outcome a).2
            ++ (Processing.process_echeques outcome b).2)) ∧
    (∀ files, (Teams.upload_files_to_teams uploadOne files).length
        = files.length) ∧
    (∀ files, (Teams.upload_files_to_teams uploadOne files).map
          (fun r => r.filename)
        = files.map (fun f => f.generatedFilename)) ∧
    (∀ files, (Teams.upload_files_to_teams uploadOne files).map
          (fun r => (r.success, r.error))
        = files.map (fun f => uploadOne f)) ∧
    (∀ a b, Teams.upload_files_to_teams uploadOne (a ++ b)
        = Teams.upload_files_to_teams uploadOne a
          ++ Teams.upload_files_to_teams uploadOne b) := by
  refine ⟨?_, ?_, ?_, ?_, ?_, ?_, ?_, ?_⟩
  · intro files
    induction files with
    | nil => rfl
    | cons f rest ih =>
      cases ho : outcome f <;>
        simp [Processing.process_echeques, ho] <;> omega
  · intro files
    induction files with
    | nil => rfl
    | cons f rest ih =>
      cases ho : outcome f <;>
        simp [Processing.process_echeques, ho, List.filterMap_cons, ih]
  · intro files
    induction files with
    | nil => rfl
    | cons f rest ih =>
      cases ho : outcome f <;>
        simp [Processing.process_echeques, ho, List.filterMap_cons, ih]
  · intro a b
    induction a with
    | nil => simp [Processing.process_echeques]
    | cons f t ih =>
      cases ho : outcome f <;>
        simp [Processing.process_echeques, ho, ih]
  · intro files
    simp [Teams.upload_files_to_teams]
  · intro files
    simp [Teams.upload_files_to_teams]
  · intro files
    simp [Teams.upload_files_to_teams]
  · intro a b
    simp [Teams.upload_files_to_teams]

end ECheque
